import Mathlib

set_option autoImplicit false

/-!
Verification of the ember-jargo-realtime addon (src/addon/mixins/realtime-store-mixin.js).

The development shallowly embeds the realtime mixin: JSON values and the
JSON.parse / property-access semantics the handlers rely on, the CementChannel
correlation protocol, the RealtimeSocket handshake and connection lifecycle,
and the subscription bookkeeping of the store mixin (_push, subscribeTask,
onConnected, onModelUpdated, onModelDeleted).  JavaScript objects used as
string-keyed dictionaries are embedded as association lists whose update
operation (objSet) replaces the binding of an existing key, matching the
unique-key semantics of JS objects.
-/

namespace JargoRealtime

/-- JSON values as produced by JSON.parse.  Numbers are restricted to the
integers: every numeric field appearing on this wire protocol (the response
status code) is an integer. -/
inductive JsonValue where
  | null
  | bool (b : Bool)
  | num (n : Int)
  | str (s : String)
  | arr (elems : List JsonValue)
  | obj (fields : List (String × JsonValue))

/-- Whitespace characters skipped by the JSON grammar. -/
def isJsonWs (c : Char) : Bool :=
  c = ' ' || c = '\n' || c = '\t' || c = '\r'

/-- Drop leading JSON whitespace. -/
def skipWs : List Char → List Char
  | [] => []
  | c :: cs => if isJsonWs c then skipWs cs else c :: cs

/-- The single-character JSON string escapes (\x5cu escapes are not modelled;
no frame of this protocol uses them). -/
def escapeChar (c : Char) : Option Char :=
  if c = '\"' then some '\"'
  else if c = '\\' then some '\\'
  else if c = '/' then some '/'
  else if c = 'n' then some '\n'
  else if c = 't' then some '\t'
  else if c = 'r' then some '\r'
  else if c = 'b' then some (Char.ofNat 8)
  else if c = 'f' then some (Char.ofNat 12)
  else none

/-- Parse the body of a JSON string literal (the opening quote already
consumed), returning the decoded string and the remaining input. -/
def parseStringBody : List Char → Option (String × List Char)
  | [] => none
  | '\"' :: cs => some ("", cs)
  | '\\' :: [] => none
  | '\\' :: e :: cs =>
    match escapeChar e, parseStringBody cs with
    | some ec, some (s, rest) => some (String.mk (ec :: s.data), rest)
    | _, _ => none
  | c :: cs =>
    match parseStringBody cs with
    | some (s, rest) => some (String.mk (c :: s.data), rest)
    | none => none

/-- Split a maximal run of decimal digits off the front of the input. -/
def takeDigits : List Char → List Char × List Char
  | [] => ([], [])
  | c :: cs =>
    if c.isDigit then
      let (ds, rest) := takeDigits cs
      (c :: ds, rest)
    else ([], c :: cs)

/-- Decimal value of a digit run. -/
def digitsToNat (ds : List Char) : Nat :=
  ds.foldl (fun n c => n * 10 + (c.toNat - 48)) 0

/-- Parse an integer JSON numeral. -/
def parseNumber : List Char → Option (JsonValue × List Char)
  | [] => none
  | c :: cs =>
    if c = '-' then
      match takeDigits cs with
      | ([], _) => none
      | (ds, rest) => some (JsonValue.num (-(digitsToNat ds : Int)), rest)
    else if c.isDigit then
      let (ds, rest) := takeDigits (c :: cs)
      some (JsonValue.num (digitsToNat ds), rest)
    else none

/-- The opening brace character, spelled via its code point. -/
def lbrace : Char := Char.ofNat 123

/-- The closing brace character, spelled via its code point. -/
def rbrace : Char := Char.ofNat 125

mutual

/-- Recursive-descent JSON value parser.  The fuel argument bounds recursion
depth; JSON.parse supplies more fuel than any input can consume. -/
def parseValue : Nat → List Char → Option (JsonValue × List Char)
  | 0, _ => none
  | fuel + 1, cs =>
    match skipWs cs with
    | [] => none
    | c :: cs1 =>
      if c = '\"' then
        match parseStringBody cs1 with
        | some (s, rest) => some (JsonValue.str s, rest)
        | none => none
      else if c = lbrace then
        match skipWs cs1 with
        | c2 :: cs2 =>
          if c2 = rbrace then some (JsonValue.obj [], cs2)
          else
            match parseMembers fuel (skipWs cs1) with
            | some (fs, rest) => some (JsonValue.obj fs, rest)
            | none => none
        | [] => none
      else if c = '[' then
        match skipWs cs1 with
        | c2 :: cs2 =>
          if c2 = ']' then some (JsonValue.arr [], cs2)
          else
            match parseElems fuel (skipWs cs1) with
            | some (vs, rest) => some (JsonValue.arr vs, rest)
            | none => none
        | [] => none
      else if c = 't' then
        match cs1 with
        | 'r' :: 'u' :: 'e' :: rest => some (JsonValue.bool true, rest)
        | _ => none
      else if c = 'f' then
        match cs1 with
        | 'a' :: 'l' :: 's' :: 'e' :: rest => some (JsonValue.bool false, rest)
        | _ => none
      else if c = 'n' then
        match cs1 with
        | 'u' :: 'l' :: 'l' :: rest => some (JsonValue.null, rest)
        | _ => none
      else parseNumber (c :: cs1)

/-- Parse the member list of a JSON object, the opening brace consumed and at
least one member present. -/
def parseMembers : Nat → List Char → Option (List (String × JsonValue) × List Char)
  | 0, _ => none
  | fuel + 1, cs =>
    match skipWs cs with
    | [] => none
    | c :: cs1 =>
      if c = '\"' then
        match parseStringBody cs1 with
        | some (k, rest1) =>
          match skipWs rest1 with
          | ':' :: rest2 =>
            match parseValue fuel rest2 with
            | some (v, rest3) =>
              match skipWs rest3 with
              | c2 :: rest4 =>
                if c2 = ',' then
                  match parseMembers fuel rest4 with
                  | some (fs, rest5) => some ((k, v) :: fs, rest5)
                  | none => none
                else if c2 = rbrace then some ([(k, v)], rest4)
                else none
              | [] => none
            | none => none
          | _ => none
        | none => none
      else none

/-- Parse the element list of a JSON array, the opening bracket consumed and
at least one element present. -/
def parseElems : Nat → List Char → Option (List JsonValue × List Char)
  | 0, _ => none
  | fuel + 1, cs =>
    match parseValue fuel cs with
    | some (v, rest) =>
      match skipWs rest with
      | c :: rest1 =>
        if c = ',' then
          match parseElems fuel rest1 with
          | some (vs, rest2) => some (v :: vs, rest2)
          | none => none
        else if c = ']' then some ([v], rest1)
        else none
      | [] => none
    | none => none

end

namespace JSON

/-- JSON.parse: parse a complete JSON document; trailing garbage rejects the
input (JSON.parse throws on it), while trailing whitespace is allowed. -/
def parse (s : String) : Option JsonValue :=
  match parseValue (2 * s.length + 8) s.data with
  | some (v, rest) => if skipWs rest = [] then some v else none
  | none => none

end JSON

/-- Last-binding-wins lookup in the field list of a parsed object: when a
document repeats a key, JSON.parse keeps the last occurrence. -/
def lookupField : List (String × JsonValue) → String → Option JsonValue
  | [], _ => none
  | (k, v) :: rest, key =>
    match lookupField rest key with
    | some w => some w
    | none => if k = key then some v else none

/-- JavaScript member access on a parsed value: defined on objects, undefined
(none) on every other value. -/
def getField : JsonValue → String → Option JsonValue
  | JsonValue.obj fields, key => lookupField fields key
  | _, _ => none

/-- JavaScript property-key coercion String(v) for a possibly undefined value
used as an object index, as in cementMessages[data.id].  Composite values
(arrays, objects) never appear as correlation ids on this protocol; their
coercions are fixed representative strings. -/
def jsPropertyKey : Option JsonValue → String
  | none => "undefined"
  | some JsonValue.null => "null"
  | some (JsonValue.bool true) => "true"
  | some (JsonValue.bool false) => "false"
  | some (JsonValue.num n) => toString n
  | some (JsonValue.str s) => s
  | some (JsonValue.arr _) => ""
  | some (JsonValue.obj _) => "[object Object]"

/-- JavaScript object read obj[key] on a string-keyed dictionary (association
list with unique keys). -/
def objGet {α : Type} : List (String × α) → String → Option α
  | [], _ => none
  | (k, v) :: m, key => if k = key then some v else objGet m key

/-- JavaScript object write obj[key] = v: replaces the binding of an existing
key, otherwise appends a new one. -/
def objSet {α : Type} : List (String × α) → String → α → List (String × α)
  | [], key, v => [(key, v)]
  | (k, w) :: m, key, v =>
    if k = key then (key, v) :: m else (k, w) :: objSet m key v

/-- JavaScript delete obj[key]: removes the binding of the key. -/
def objDelete {α : Type} : List (String × α) → String → List (String × α)
  | [], _ => []
  | (k, v) :: m, key =>
    if k = key then objDelete m key else (k, v) :: objDelete m key

/-- The strict comparison data.status === 0 performed by CementChannel
onMessage: true exactly when the decoded frame has a status field holding the
number 0. -/
def statusIsZero (d : JsonValue) : Bool :=
  match getField d "status" with
  | some (JsonValue.num n) => n == 0
  | _ => false

/-- How a pending request promise is settled by an inbound frame: resolve or
reject, carrying the full decoded response. -/
inductive SettleOutcome where
  | resolved (response : JsonValue)
  | rejected (response : JsonValue)

/-- Effect of one CementChannel.onMessage call: the cementMessages map after
the call, the promise it settled (none when it settled nothing), and whether
the handler threw an exception (JSON.parse failing, or resolve/reject being
read off undefined when no pending request matches the frame id). -/
structure MsgEffect where
  cementMessages : List (String × Nat)
  settled : Option (Nat × SettleOutcome)
  threw : Bool

namespace CementChannel

/-- CementChannel.send: a fresh correlation id is drawn (UUID.v4, modelled by
passing the id with a freshness hypothesis where needed), the frame
\x7bid, data\x7d goes out on the channel, and the promise continuations are
stored under the id.  The promise is named by the token req. -/
def send (cementMessages : List (String × Nat)) (id : String) (req : Nat) :
    List (String × Nat) :=
  objSet cementMessages id req

/-- CementChannel.onMessage: decode the frame, look up the pending request
under data.id, resolve it when data.status === 0 and reject it otherwise,
then delete the entry.  A frame whose id matches no pending request makes the
handler throw (cementMessages[data.id] is undefined) before any entry is
touched. -/
def onMessage (cementMessages : List (String × Nat)) (message : String) :
    MsgEffect :=
  match JSON.parse message with
  | none => ⟨cementMessages, none, true⟩
  | some d =>
    match objGet cementMessages (jsPropertyKey (getField d "id")) with
    | none => ⟨cementMessages, none, true⟩
    | some req =>
      if statusIsZero d then
        ⟨objDelete cementMessages (jsPropertyKey (getField d "id")),
         some (req, SettleOutcome.resolved d), false⟩
      else
        ⟨objDelete cementMessages (jsPropertyKey (getField d "id")),
         some (req, SettleOutcome.rejected d), false⟩

/-- Process a sequence of inbound frames in arrival order, collecting every
promise settlement.  A throwing onMessage call settles nothing and leaves the
pending map as it was. -/
def runMessages (cementMessages : List (String × Nat)) :
    List String → List (String × Nat) × List (Nat × SettleOutcome)
  | [] => (cementMessages, [])
  | message :: rest =>
    ((runMessages (onMessage cementMessages message).cementMessages rest).1,
     (onMessage cementMessages message).settled.toList ++
       (runMessages (onMessage cementMessages message).cementMessages rest).2)

end CementChannel

/-- The correlation id carried by an inbound frame, as the property key the
handler indexes cementMessages with; none when the frame is not valid JSON. -/
def frameKey (message : String) : Option String :=
  (JSON.parse message).map (fun d => jsPropertyKey (getField d "id"))

/-- Whether an inbound frame passes the status === 0 success test. -/
def frameStatusZero (message : String) : Bool :=
  match JSON.parse message with
  | some d => statusIsZero d
  | none => false

/-- Outcome a settled handshake promise can carry: resolution on acceptance,
rejection on an explicit disallow, rejection with a timeout error when the
server reports that the connection message did not arrive in time. -/
inductive HandshakeResult where
  | accepted
  | disallowed
  | timedOut
deriving DecidableEq, Repr

/-- Callbacks the RealtimeSocket fires into the store mixin. -/
inductive Emit where
  | onConnected
  | onDisconnected
  | reject (req : Nat)
deriving DecidableEq, Repr

/-- Observable state of a RealtimeSocket: the connected flag (connection
established and accepted) and the pending-request map of the subscribe
CementChannel. -/
structure RTState where
  connected : Bool
  cementMessages : List (String × Nat)
deriving DecidableEq, Repr

namespace RealtimeSocket

/-- The sentinel dispatch of the handler installed by sendConnectionMessage:
which settlement, if any, a single inbound handshake message triggers. -/
def connectionSentinel (message : String) : Option HandshakeResult :=
  if message = "CONNECTION_TIMEOUT" then some HandshakeResult.timedOut
  else if message = "CONNECTION_DISALLOWED" then some HandshakeResult.disallowed
  else if message = "CONNECTION_ACCEPTED" then some HandshakeResult.accepted
  else none

/-- One message arriving while the handshake promise is in the given state: a
settled promise ignores further resolve/reject calls, an unsettled one settles
on a sentinel and stays pending on anything else. -/
def promiseStep (st : Option HandshakeResult) (message : String) :
    Option HandshakeResult :=
  match st with
  | some r => some r
  | none => connectionSentinel message

/-- sendConnectionMessage: the state of the returned promise after the given
sequence of messages has arrived on the socket.  none means the promise is
still pending. -/
def sendConnectionMessage (messages : List String) : Option HandshakeResult :=
  messages.foldl promiseStep none

/-- socketOnDisconnected: sets connected to false and invokes onDisconnected.
It touches nothing else; in particular the cementMessages of the subscribe
channel keep every pending request. -/
def socketOnDisconnected (st : RTState) : RTState × List Emit :=
  ({ st with connected := false }, [Emit.onDisconnected])

/-- _onModelUpdated: JSON.parse the raw frame, JSON.parse the nested payload
field, and hand (message.model, message.id, decoded payload) to the
onModelUpdated callback.  none models the handler throwing: invalid JSON, or
a payload whose string coercion is not a JSON document (only string payloads
occur on this protocol).  String(n) of a numeric payload re-parses to the same
number, so numeric, boolean and null payloads survive the round trip. -/
def _onModelUpdated (data : String) :
    Option (Option JsonValue × Option JsonValue × JsonValue) :=
  match JSON.parse data with
  | none => none
  | some msg =>
    match getField msg "payload" with
    | some (JsonValue.str p) =>
      match JSON.parse p with
      | none => none
      | some payload => some (getField msg "model", getField msg "id", payload)
    | some (JsonValue.num n) =>
      some (getField msg "model", getField msg "id", JsonValue.num n)
    | some (JsonValue.bool b) =>
      some (getField msg "model", getField msg "id", JsonValue.bool b)
    | some JsonValue.null =>
      some (getField msg "model", getField msg "id", JsonValue.null)
    | _ => none

/-- _onModelDeleted: JSON.parse the raw frame and hand
(message.model, message.id) to the onModelDeleted callback. -/
def _onModelDeleted (data : String) :
    Option (Option JsonValue × Option JsonValue) :=
  (JSON.parse data).map (fun msg => (getField msg "model", getField msg "id"))

end RealtimeSocket

/-- Transport-level events driving the RealtimeSocket lifecycle: the
connected event (carrying the messages subsequently arriving for the
handshake exchange of socketOnConnectedTask) and the disconnected event. -/
inductive SockEvent where
  | connectedEvt (handshakeMessages : List String)
  | disconnectedEvt
deriving DecidableEq, Repr

/-- Whether a transport event is a connected event whose handshake exchange
resolves with CONNECTION_ACCEPTED. -/
def acceptedEvent : SockEvent → Bool
  | SockEvent.connectedEvt msgs =>
    match RealtimeSocket.sendConnectionMessage msgs with
    | some HandshakeResult.accepted => true
    | _ => false
  | SockEvent.disconnectedEvt => false

/-- The callbacks one transport event fires: onDisconnected from the
disconnected handler, onConnected from socketOnConnectedTask once the
handshake resolves; a rejected or pending handshake fires nothing. -/
def stepEmits (e : SockEvent) : List Emit :=
  match e with
  | SockEvent.disconnectedEvt => [Emit.onDisconnected]
  | SockEvent.connectedEvt msgs =>
    match RealtimeSocket.sendConnectionMessage msgs with
    | some HandshakeResult.accepted => [Emit.onConnected]
    | _ => []

/-- One transport event acting on the socket state.  On disconnected the
socketOnDisconnected handler runs.  On connected, socketOnConnectedTask awaits
sendConnectionMessage: only when that promise resolves (acceptance) does the
task set connected to true and invoke onConnected; a rejected or forever
pending handshake leaves the state untouched. -/
def socketStep (st : RTState) (e : SockEvent) : RTState × List Emit :=
  match e with
  | SockEvent.disconnectedEvt => RealtimeSocket.socketOnDisconnected st
  | SockEvent.connectedEvt msgs =>
    match RealtimeSocket.sendConnectionMessage msgs with
    | some HandshakeResult.accepted => ({ st with connected := true }, [Emit.onConnected])
    | _ => (st, [])

/-- Run the socket lifecycle from a given state over a list of transport
events, collecting every callback fired in order. -/
def socketRunFrom (st : RTState) : List SockEvent → RTState × List Emit
  | [] => (st, [])
  | e :: es =>
    ((socketRunFrom (socketStep st e).1 es).1,
     (socketStep st e).2 ++ (socketRunFrom (socketStep st e).1 es).2)

/-- The socket starts disconnected with no pending requests. -/
def initialRTState : RTState := ⟨false, []⟩

/-- Run the socket lifecycle from its initial state. -/
def socketRun (es : List SockEvent) : RTState × List Emit :=
  socketRunFrom initialRTState es

/-- A record pushed into the store: its Ember model name
(model._internalModel.modelName) and its id. -/
structure Record where
  modelName : String
  id : String
deriving DecidableEq, Repr

/-- The value returned by the superclass _push: null, a single internal
model, or an array of internal models. -/
inductive PushedValue where
  | nullPush
  | single (r : Record)
  | many (rs : List Record)
deriving DecidableEq, Repr

/-- State of the store mixin: the subscriptions registry (model name to list
of subscribed ids), the jsonapiModelNames map (wire-level name to Ember model
name), the subscribe requests performed so far (as the (modelName, id)
arguments handed to subscribeTask.perform), and the record cache owned by the
superclass. -/
structure StoreState where
  subscriptions : List (String × List String)
  jsonapiModelNames : List (String × String)
  sentSubscribes : List (String × String)
  cache : List Record
deriving DecidableEq, Repr

/-- subscribeTask: translate the Ember model name through the adapter
(pathForType), record the binding wire name to model name in
jsonapiModelNames, and send the subscribe request. -/
def subscribeTask (pathForType : String → String) (st : StoreState)
    (modelName id : String) : StoreState :=
  { st with
    jsonapiModelNames := objSet st.jsonapiModelNames (pathForType modelName) modelName,
    sentSubscribes := st.sentSubscribes ++ [(modelName, id)] }

/-- The body of the _push loop for one record that passed shouldSubscribe:
read the id list for its model name (empty when absent), and when the id is
not yet present, append it and, only if connected, perform subscribeTask;
finally write the id list back. -/
def trackModel (pathForType : String → String) (connected : Bool)
    (st : StoreState) (r : Record) : StoreState :=
  let ids := (objGet st.subscriptions r.modelName).getD []
  if r.id ∈ ids then
    { st with subscriptions := objSet st.subscriptions r.modelName ids }
  else
    let st1 := if connected then subscribeTask pathForType st r.modelName r.id else st
    { st1 with subscriptions := objSet st1.subscriptions r.modelName (ids ++ [r.id]) }

/-- The records carried by a super _push result. -/
def recordsOf : PushedValue → List Record
  | PushedValue.nullPush => []
  | PushedValue.single r => [r]
  | PushedValue.many rs => rs

/-- The mixin _push override: call super, and unless it returned null, run
every pushed record that passes shouldSubscribe through the subscription
bookkeeping; the super result is returned unchanged. -/
def _push (shouldSubscribe : Record → Bool) (pathForType : String → String)
    (connected : Bool) (st : StoreState) (pushed : PushedValue) :
    StoreState × PushedValue :=
  match pushed with
  | PushedValue.nullPush => (st, pushed)
  | _ =>
    ((recordsOf pushed).foldl
      (fun s r => if shouldSubscribe r then trackModel pathForType connected s r else s)
      st,
     pushed)

/-- Whether the subscriptions registry records the pair (modelName, id),
through the same lookup _push performs. -/
def trackedPair (subscriptions : List (String × List String)) (m i : String) :
    Bool :=
  match objGet subscriptions m with
  | some ids => decide (i ∈ ids)
  | none => false

/-- The (modelName, id) arguments of the subscribeTask performs issued by
onConnected: one per id of every entry of the subscriptions registry, in
iteration order. -/
def onConnectedPerforms (subscriptions : List (String × List String)) :
    List (String × String) :=
  subscriptions.flatMap (fun p => p.2.map (fun i => (p.1, i)))

/-- The onConnected replay with the outcome of each subscribe attempt
supplied by an oracle: every tracked pair is attempted and paired with its
own outcome; no outcome is consulted to decide whether to attempt the rest. -/
def onConnectedAttempts (fail : String → String → Bool)
    (subscriptions : List (String × List String)) :
    List ((String × String) × Bool) :=
  subscriptions.flatMap (fun p => p.2.map (fun i => ((p.1, i), fail p.1 i)))

/-- Well-formedness of the subscriptions registry: model names are distinct
keys (JS object keys are unique) and no id list holds a duplicate (ids are
appended only when absent). -/
def RegistryWF (subscriptions : List (String × List String)) : Prop :=
  (subscriptions.map Prod.fst).Nodup ∧ ∀ p ∈ subscriptions, p.2.Nodup

/-- One interest registration: whether the socket was connected at that
moment, and the record pushed. -/
structure TrackEvent where
  connected : Bool
  record : Record
deriving DecidableEq, Repr

/-- Run a sequence of interest registrations against an initially empty
store. -/
def runTrack (pathForType : String → String) (events : List TrackEvent) :
    StoreState :=
  events.foldl
    (fun st e => trackModel pathForType e.connected st e.record)
    ⟨[], [], [], []⟩

/-- What an inbound update push dispatches into the store: the local model
name handed to pushPayload (none embeds the undefined produced by an unbound
wire name), the id the handler received, and the decoded payload. -/
structure UpdateDispatch where
  modelName : Option String
  id : Option JsonValue
  payload : JsonValue

/-- What an inbound delete push dispatches: the local model name handed to
deleteRecordTask (none embeds undefined) and the id. -/
structure DeleteDispatch where
  modelName : Option String
  id : Option JsonValue

/-- The mixin onModelUpdated handler: resolve the wire-level name through
jsonapiModelNames and call pushPayload with the resolved name (undefined when
the map has no binding) and the payload. -/
def onModelUpdated (jsonapiModelNames : List (String × String))
    (jsonapiModelName : Option JsonValue) (id : Option JsonValue)
    (payload : JsonValue) : UpdateDispatch :=
  ⟨objGet jsonapiModelNames (jsPropertyKey jsonapiModelName), id, payload⟩

/-- The mixin onModelDeleted handler: resolve the wire-level name through
jsonapiModelNames and perform deleteRecordTask with the resolved name
(undefined when the map has no binding) and the id. -/
def onModelDeleted (jsonapiModelNames : List (String × String))
    (jsonapiModelName : Option JsonValue) (id : Option JsonValue) :
    DeleteDispatch :=
  ⟨objGet jsonapiModelNames (jsPropertyKey jsonapiModelName), id⟩

/-- Full update path for a raw frame on the updated channel:
RealtimeSocket._onModelUpdated decoding followed by the mixin onModelUpdated
handler; none when decoding threw. -/
def dispatchUpdate (jsonapiModelNames : List (String × String))
    (data : String) : Option UpdateDispatch :=
  (RealtimeSocket._onModelUpdated data).map
    (fun t => onModelUpdated jsonapiModelNames t.1 t.2.1 t.2.2)

/-- Full delete path for a raw frame on the deleted channel. -/
def dispatchDelete (jsonapiModelNames : List (String × String))
    (data : String) : Option DeleteDispatch :=
  (RealtimeSocket._onModelDeleted data).map
    (fun t => onModelDeleted jsonapiModelNames t.1 t.2)

/-- Success response frame for correlation id aaa. -/
def okFrameA : String := "\x7b\"id\":\"aaa\",\"status\":0\x7d"

/-- Failure response frame for correlation id bbb. -/
def errFrameB : String := "\x7b\"id\":\"bbb\",\"status\":3\x7d"

/-- Two pending requests created by two concurrent send calls with distinct
fresh correlation ids. -/
def pendingDemo : List (String × Nat) := [("aaa", 0), ("bbb", 1)]

/-- Concrete inbound sequence for the correlation witness: the success
response for the first send and a failure response for the second. -/
def msgsDemo : List String := [okFrameA, errFrameB]

/-- Response frame whose correlation id matches no pending request. -/
def strayFrame : String := "\x7b\"id\":\"zzz\",\"status\":0\x7d"

/-- The decoded stray frame. -/
def strayDoc : JsonValue :=
  JsonValue.obj [("id", JsonValue.str "zzz"), ("status", JsonValue.num 0)]

/-- Raw update frame: model article, id 1, nested JSON payload
\x7b"title":"x"\x7d. -/
def articleFrame : String :=
  "\x7b\"model\":\"article\",\"id\":\"1\",\"payload\":\"\x7b\\\"title\\\":\\\"x\\\"\x7d\"\x7d"

/-- Raw delete frame: model article, id 1. -/
def deleteFrame : String := "\x7b\"model\":\"article\",\"id\":\"1\"\x7d"

/-- The state component of one lifecycle step: a disconnect clears the
connected flag, an accepted handshake sets it, everything else leaves the
state alone. -/
def stepState (st : RTState) (e : SockEvent) : RTState :=
  match e with
  | SockEvent.disconnectedEvt => { st with connected := false }
  | SockEvent.connectedEvt msgs =>
    match RealtimeSocket.sendConnectionMessage msgs with
    | some HandshakeResult.accepted => { st with connected := true }
    | _ => st

/-- A concrete well-formed registry for the replay witness. -/
def subsDemo : List (String × List String) := [("post", ["1", "2"]), ("user", ["1"])]

/-- The subscribe-traffic invariant of the always-connected store: a pair has
been sent exactly when the registry records it. -/
def sentMatchesRegistry (st : StoreState) : Prop :=
  ∀ m i, (m, i) ∈ st.sentSubscribes ↔ trackedPair st.subscriptions m i = true

/-- Concrete registration sequence for the tracking witness: a duplicate
registration of (post, 1) and a registration of (user, 2), all connected. -/
def demoEvents : List TrackEvent :=
  [⟨true, ⟨"post", "1"⟩⟩, ⟨true, ⟨"post", "1"⟩⟩, ⟨true, ⟨"user", "2"⟩⟩]

/-! Helper lemmas about the JavaScript-object operations. -/

lemma objGet_mem {α : Type} {m : List (String × α)} {k : String} {v : α}
    (h : objGet m k = some v) : (k, v) ∈ m := by
  induction m with
  | nil => simp [objGet] at h
  | cons p m ih =>
    obtain ⟨k1, v1⟩ := p
    by_cases hk : k1 = k
    · subst hk
      simp [objGet] at h
      simp [h]
    · simp [objGet, hk] at h
      exact List.mem_cons_of_mem _ (ih h)

lemma mem_objGet {α : Type} {m : List (String × α)} {k : String} {v : α}
    (hnd : (m.map Prod.fst).Nodup) (h : (k, v) ∈ m) : objGet m k = some v := by
  induction m with
  | nil => simp at h
  | cons p m ih =>
    obtain ⟨k1, v1⟩ := p
    simp only [List.map_cons, List.nodup_cons] at hnd
    by_cases hk : k1 = k
    · subst hk
      rcases List.mem_cons.mp h with h1 | h1
      · obtain ⟨-, hv⟩ := (Prod.mk.injEq ..) ▸ h1
        subst hv
        simp [objGet]
      · exact absurd (List.mem_map.mpr ⟨(k1, v), h1, rfl⟩) hnd.1
    · simp only [objGet, if_neg hk]
      rcases List.mem_cons.mp h with h1 | h1
      · obtain ⟨hk1, -⟩ := (Prod.mk.injEq ..) ▸ h1
        exact absurd hk1.symm hk
      · exact ih hnd.2 h1

lemma objGet_eq_none_of_not_mem {α : Type} {m : List (String × α)} {k : String}
    (h : ∀ v, (k, v) ∉ m) : objGet m k = none := by
  cases hg : objGet m k with
  | none => rfl
  | some v => exact absurd (objGet_mem hg) (h v)

lemma objDelete_sublist {α : Type} (m : List (String × α)) (key : String) :
    List.Sublist (objDelete m key) m := by
  induction m with
  | nil => simp [objDelete]
  | cons p m ih =>
    obtain ⟨k, v⟩ := p
    by_cases hk : k = key
    · simp only [objDelete, if_pos hk]
      exact ih.cons _
    · simp only [objDelete, if_neg hk]
      exact ih.cons₂ _

lemma mem_objDelete_of_ne {α : Type} {m : List (String × α)} {k key : String}
    {v : α} (h : (k, v) ∈ m) (hne : k ≠ key) : (k, v) ∈ objDelete m key := by
  induction m with
  | nil => simp at h
  | cons p m ih =>
    obtain ⟨k1, v1⟩ := p
    rcases List.mem_cons.mp h with h1 | h1
    · obtain ⟨hk, hv⟩ := Prod.mk.injEq .. ▸ h1
      subst hk hv
      simp only [objDelete, if_neg hne]
      exact List.mem_cons_self _ _
    · by_cases hk : k1 = key
      · simpa [objDelete, hk] using ih h1
      · simp only [objDelete, if_neg hk]
        exact List.mem_cons_of_mem _ (ih h1)

lemma objGet_objDelete_self {α : Type} (m : List (String × α)) (key : String) :
    objGet (objDelete m key) key = none := by
  induction m with
  | nil => simp [objDelete, objGet]
  | cons p m ih =>
    obtain ⟨k, v⟩ := p
    by_cases hk : k = key
    · simpa [objDelete, hk] using ih
    · simpa [objDelete, objGet, hk] using ih

lemma objGet_objSet {α : Type} (m : List (String × α)) (k k2 : String) (v : α) :
    objGet (objSet m k v) k2 = if k2 = k then some v else objGet m k2 := by
  induction m with
  | nil =>
    by_cases hk : k2 = k
    · simp [objSet, objGet, hk]
    · have hks : ¬(k = k2) := fun h => hk h.symm
      simp [objSet, objGet, hk, hks]
  | cons p m ih =>
    obtain ⟨k1, v1⟩ := p
    by_cases h1 : k1 = k
    · subst h1
      by_cases h2 : k1 = k2
      · subst h2
        simp [objSet, objGet]
      · have h2s : ¬(k2 = k1) := fun h => h2 h.symm
        simp [objSet, objGet, h2, h2s]
    · by_cases h2 : k1 = k2
      · subst h2
        simp [objSet, objGet, h1]
      · simp [objSet, objGet, h1, h2, ih]

lemma objSet_get_self {α : Type} {m : List (String × α)} {k : String} {v : α}
    (h : objGet m k = some v) : objSet m k v = m := by
  induction m with
  | nil => simp [objGet] at h
  | cons p m ih =>
    obtain ⟨k1, v1⟩ := p
    by_cases hk : k1 = k
    · subst hk
      simp [objGet] at h
      simp [objSet, h]
    · simp [objGet, hk] at h
      simp [objSet, hk, ih h]

/-! Inversion and stepping lemmas for CementChannel.onMessage. -/

lemma onMessage_parse_none {pending : List (String × Nat)} {m : String}
    (hp : JSON.parse m = none) :
    CementChannel.onMessage pending m = ⟨pending, none, true⟩ := by
  unfold CementChannel.onMessage
  simp only [hp]

lemma onMessage_unmatched {pending : List (String × Nat)} {m : String}
    {d : JsonValue} (hp : JSON.parse m = some d)
    (hg : objGet pending (jsPropertyKey (getField d "id")) = none) :
    CementChannel.onMessage pending m = ⟨pending, none, true⟩ := by
  unfold CementChannel.onMessage
  simp only [hp, hg]

lemma onMessage_matched {pending : List (String × Nat)} {m : String}
    {d : JsonValue} {r : Nat} (hp : JSON.parse m = some d)
    (hg : objGet pending (jsPropertyKey (getField d "id")) = some r) :
    CementChannel.onMessage pending m =
      ⟨objDelete pending (jsPropertyKey (getField d "id")),
       some (r, if statusIsZero d then SettleOutcome.resolved d
                else SettleOutcome.rejected d),
       false⟩ := by
  unfold CementChannel.onMessage
  simp only [hp, hg]
  by_cases hz : statusIsZero d <;> simp [hz]

lemma onMessage_settled_cases {pending : List (String × Nat)} {m : String}
    {r : Nat} {o : SettleOutcome}
    (h : (CementChannel.onMessage pending m).settled = some (r, o)) :
    ∃ d, JSON.parse m = some d ∧
      objGet pending (jsPropertyKey (getField d "id")) = some r ∧
      ((statusIsZero d = true ∧ o = SettleOutcome.resolved d) ∨
       (statusIsZero d = false ∧ o = SettleOutcome.rejected d)) := by
  cases hp : JSON.parse m with
  | none => rw [onMessage_parse_none hp] at h; simp at h
  | some d =>
    cases hg : objGet pending (jsPropertyKey (getField d "id")) with
    | none => rw [onMessage_unmatched hp hg] at h; simp at h
    | some req =>
      rw [onMessage_matched hp hg] at h
      simp only [Option.some.injEq, Prod.mk.injEq] at h
      obtain ⟨hr, ho⟩ := h
      subst hr
      by_cases hz : statusIsZero d
      · rw [if_pos hz] at ho
        exact ⟨d, rfl, hg, Or.inl ⟨hz, ho.symm⟩⟩
      · rw [if_neg hz] at ho
        exact ⟨d, rfl, hg, Or.inr ⟨by simpa using hz, ho.symm⟩⟩

lemma onMessage_cement_sublist (pending : List (String × Nat)) (m : String) :
    List.Sublist (CementChannel.onMessage pending m).cementMessages pending := by
  cases hp : JSON.parse m with
  | none => rw [onMessage_parse_none hp]
  | some d =>
    cases hg : objGet pending (jsPropertyKey (getField d "id")) with
    | none => rw [onMessage_unmatched hp hg]
    | some req =>
      rw [onMessage_matched hp hg]
      exact objDelete_sublist _ _

lemma onMessage_preserves_other {pending : List (String × Nat)} {m : String}
    {a : String} {r : Nat} (hmem : (a, r) ∈ pending)
    (hkey : frameKey m ≠ some a) :
    (a, r) ∈ (CementChannel.onMessage pending m).cementMessages := by
  cases hp : JSON.parse m with
  | none => rw [onMessage_parse_none hp]; exact hmem
  | some d =>
    cases hg : objGet pending (jsPropertyKey (getField d "id")) with
    | none => rw [onMessage_unmatched hp hg]; exact hmem
    | some req =>
      rw [onMessage_matched hp hg]
      refine mem_objDelete_of_ne hmem (fun hak => hkey ?_)
      rw [frameKey, hp]
      simp [hak]

lemma fst_eq_of_mem_of_snd_nodup {α : Type} {m : List (String × α)}
    {k1 k2 : String} {v : α} (hnd : (m.map Prod.snd).Nodup)
    (h1 : (k1, v) ∈ m) (h2 : (k2, v) ∈ m) : k1 = k2 := by
  induction m with
  | nil => simp at h1
  | cons p m ih =>
    obtain ⟨k0, v0⟩ := p
    simp only [List.map_cons, List.nodup_cons] at hnd
    rcases List.mem_cons.mp h1 with ha | ha <;> rcases List.mem_cons.mp h2 with hb | hb
    · obtain ⟨hka, _⟩ := Prod.mk.injEq .. ▸ ha
      obtain ⟨hkb, _⟩ := Prod.mk.injEq .. ▸ hb
      exact hka.trans hkb.symm
    · obtain ⟨hka, hva⟩ := Prod.mk.injEq .. ▸ ha
      exact absurd (List.mem_map.mpr ⟨(k2, v), hb, by simp [hva]⟩) hnd.1
    · obtain ⟨hkb, hvb⟩ := Prod.mk.injEq .. ▸ hb
      exact absurd (List.mem_map.mpr ⟨(k1, v), ha, by simp [hvb]⟩) hnd.1
    · exact ih hnd.2 ha hb

/-- Every settlement produced by a message sequence originates in a frame of
the sequence that decoded successfully and whose correlation id keyed the
settled promise in the initial pending map. -/
lemma settle_src (msgs : List String) :
    ∀ (pending : List (String × Nat)) (r : Nat) (o : SettleOutcome),
    (r, o) ∈ (CementChannel.runMessages pending msgs).2 →
    ∃ msg ∈ msgs, ∃ d, JSON.parse msg = some d ∧
      (jsPropertyKey (getField d "id"), r) ∈ pending ∧
      ((statusIsZero d = true ∧ o = SettleOutcome.resolved d) ∨
       (statusIsZero d = false ∧ o = SettleOutcome.rejected d)) := by
  induction msgs with
  | nil =>
    intro pending r o h
    simp [CementChannel.runMessages] at h
  | cons m rest ih =>
    intro pending r o h
    simp only [CementChannel.runMessages] at h
    rcases List.mem_append.mp h with h1 | h1
    · have hs : (CementChannel.onMessage pending m).settled = some (r, o) := by
        simpa [Option.mem_toList, Option.mem_def] using h1
      obtain ⟨d, hp, hg, hcases⟩ := onMessage_settled_cases hs
      exact ⟨m, List.mem_cons_self .., d, hp, objGet_mem hg, hcases⟩
    · obtain ⟨msg, hmsg, d, hp, hmem, hcases⟩ := ih _ _ _ h1
      exact ⟨msg, List.mem_cons_of_mem _ hmsg, d, hp,
        (onMessage_cement_sublist pending m).subset hmem, hcases⟩

/-- If among the frames exactly one carries the correlation id of a pending
request, processing the sequence settles that request according to the status
of that frame. -/
lemma settle_match (msgs : List String) :
    ∀ (pending : List (String × Nat)) (a : String) (r : Nat),
    (a, r) ∈ pending → (pending.map Prod.fst).Nodup →
    msgs.countP (fun msg => decide (frameKey msg = some a)) ≤ 1 →
    ∀ msg ∈ msgs, frameKey msg = some a →
    ((frameStatusZero msg = true →
       ∃ d, (r, SettleOutcome.resolved d) ∈ (CementChannel.runMessages pending msgs).2) ∧
     (frameStatusZero msg = false →
       ∃ d, (r, SettleOutcome.rejected d) ∈ (CementChannel.runMessages pending msgs).2)) := by
  induction msgs with
  | nil =>
    intro pending a r _ _ _ msg hmsg _
    simp at hmsg
  | cons m rest ih =>
    intro pending a r hmem hnd hone msg hmsg hkey
    rcases List.mem_cons.mp hmsg with rfl | hmsg'
    · obtain ⟨d, hp, hkd⟩ :
          ∃ d, JSON.parse msg = some d ∧ jsPropertyKey (getField d "id") = a := by
        unfold frameKey at hkey
        obtain ⟨d, hd, hfd⟩ := Option.map_eq_some'.mp hkey
        exact ⟨d, hd, hfd⟩
      have hg : objGet pending (jsPropertyKey (getField d "id")) = some r := by
        rw [hkd]
        exact mem_objGet hnd hmem
      have hzf : frameStatusZero msg = statusIsZero d := by
        unfold frameStatusZero
        rw [hp]
      constructor
      · intro hz
        refine ⟨d, ?_⟩
        simp only [CementChannel.runMessages]
        apply List.mem_append_left
        rw [onMessage_matched hp hg]
        rw [hzf] at hz
        simp [hz]
      · intro hz
        refine ⟨d, ?_⟩
        simp only [CementChannel.runMessages]
        apply List.mem_append_left
        rw [onMessage_matched hp hg]
        rw [hzf] at hz
        simp [hz]
    · have hkm : frameKey m ≠ some a := by
        intro hkm
        have hpos : 0 < rest.countP (fun msg => decide (frameKey msg = some a)) :=
          List.countP_pos_iff.mpr ⟨msg, hmsg', by simp [hkey]⟩
        have : rest.countP (fun msg => decide (frameKey msg = some a)) + 1 ≤ 1 := by
          calc rest.countP (fun msg => decide (frameKey msg = some a)) + 1
              = (m :: rest).countP (fun msg => decide (frameKey msg = some a)) := by
                rw [List.countP_cons]
                simp [hkm]
            _ ≤ 1 := hone
        omega
      have hmem' := onMessage_preserves_other hmem hkm
      have hnd' : ((CementChannel.onMessage pending m).cementMessages.map Prod.fst).Nodup :=
        hnd.sublist ((onMessage_cement_sublist pending m).map Prod.fst)
      have hone' : rest.countP (fun msg => decide (frameKey msg = some a)) ≤ 1 := by
        have := List.countP_cons (fun msg => decide (frameKey msg = some a)) m rest
        omega
      obtain ⟨ih1, ih2⟩ := ih _ a r hmem' hnd' hone' msg hmsg' hkey
      constructor
      · intro hz
        obtain ⟨d, hd⟩ := ih1 hz
        refine ⟨d, ?_⟩
        simp only [CementChannel.runMessages]
        exact List.mem_append_right _ hd
      · intro hz
        obtain ⟨d, hd⟩ := ih2 hz
        refine ⟨d, ?_⟩
        simp only [CementChannel.runMessages]
        exact List.mem_append_right _ hd

/-- C1: over any inbound frame sequence in which at most one frame carries
the correlation id of a send call (UUID freshness: the server answers each id
once), the promise of that send resolves exactly when a frame with its id and
status 0 arrives, rejects exactly when a frame with its id and nonzero status
arrives, and every settlement of the promise originates in a frame carrying
its own id, so the response for one concurrent send never settles another. -/
theorem sendSettlesByCorrelationId
    (pending : List (String × Nat)) (a : String) (r : Nat) (msgs : List String)
    (hmem : (a, r) ∈ pending)
    (hfst : (pending.map Prod.fst).Nodup)
    (hsnd : (pending.map Prod.snd).Nodup)
    (hone : msgs.countP (fun msg => decide (frameKey msg = some a)) ≤ 1) :
    ((∃ d, (r, SettleOutcome.resolved d) ∈ (CementChannel.runMessages pending msgs).2) ↔
      ∃ msg ∈ msgs, frameKey msg = some a ∧ frameStatusZero msg = true) ∧
    ((∃ d, (r, SettleOutcome.rejected d) ∈ (CementChannel.runMessages pending msgs).2) ↔
      ∃ msg ∈ msgs, frameKey msg = some a ∧ frameStatusZero msg = false) ∧
    (∀ o, (r, o) ∈ (CementChannel.runMessages pending msgs).2 →
      ∃ msg ∈ msgs, frameKey msg = some a) := by
  have hsrc : ∀ o, (r, o) ∈ (CementChannel.runMessages pending msgs).2 →
      ∃ msg ∈ msgs, ∃ d, JSON.parse msg = some d ∧
        jsPropertyKey (getField d "id") = a ∧
        ((statusIsZero d = true ∧ o = SettleOutcome.resolved d) ∨
         (statusIsZero d = false ∧ o = SettleOutcome.rejected d)) := by
    intro o ho
    obtain ⟨msg, hmsg, d, hp, hpend, hcases⟩ := settle_src msgs pending r o ho
    exact ⟨msg, hmsg, d, hp, fst_eq_of_mem_of_snd_nodup hsnd hpend hmem, hcases⟩
  refine ⟨⟨?_, ?_⟩, ⟨?_, ?_⟩, ?_⟩
  · rintro ⟨d, hd⟩
    obtain ⟨msg, hmsg, d', hp, hk, hcases⟩ := hsrc _ hd
    rcases hcases with ⟨hz, -⟩ | ⟨-, ho⟩
    · refine ⟨msg, hmsg, ?_, ?_⟩
      · rw [frameKey, hp]
        simp [hk]
      · unfold frameStatusZero
        rw [hp]
        exact hz
    · cases ho
  · rintro ⟨msg, hmsg, hkey, hz⟩
    exact (settle_match msgs pending a r hmem hfst hone msg hmsg hkey).1 hz
  · rintro ⟨d, hd⟩
    obtain ⟨msg, hmsg, d', hp, hk, hcases⟩ := hsrc _ hd
    rcases hcases with ⟨-, ho⟩ | ⟨hz, -⟩
    · cases ho
    · refine ⟨msg, hmsg, ?_, ?_⟩
      · rw [frameKey, hp]
        simp [hk]
      · unfold frameStatusZero
        rw [hp]
        exact hz
  · rintro ⟨msg, hmsg, hkey, hz⟩
    exact (settle_match msgs pending a r hmem hfst hone msg hmsg hkey).2 hz
  · intro o ho
    obtain ⟨msg, hmsg, d', hp, hk, -⟩ := hsrc _ ho
    refine ⟨msg, hmsg, ?_⟩
    rw [frameKey, hp]
    simp [hk]

/-- Witness for sendSettlesByCorrelationId at a concrete channel state and
frame sequence. -/
theorem sendSettlesByCorrelationId_witness :
    (("aaa", 0) ∈ pendingDemo) ∧
    (pendingDemo.map Prod.fst).Nodup ∧
    (pendingDemo.map Prod.snd).Nodup ∧
    msgsDemo.countP (fun msg => decide (frameKey msg = some "aaa")) ≤ 1 ∧
    (((∃ d, (0, SettleOutcome.resolved d) ∈ (CementChannel.runMessages pendingDemo msgsDemo).2) ↔
        ∃ msg ∈ msgsDemo, frameKey msg = some "aaa" ∧ frameStatusZero msg = true) ∧
      ((∃ d, (0, SettleOutcome.rejected d) ∈ (CementChannel.runMessages pendingDemo msgsDemo).2) ↔
        ∃ msg ∈ msgsDemo, frameKey msg = some "aaa" ∧ frameStatusZero msg = false) ∧
      (∀ o, (0, o) ∈ (CementChannel.runMessages pendingDemo msgsDemo).2 →
        ∃ msg ∈ msgsDemo, frameKey msg = some "aaa")) :=
  ⟨by decide, by decide, by decide, by decide,
   sendSettlesByCorrelationId pendingDemo "aaa" 0 msgsDemo
     (by decide) (by decide) (by decide) (by decide)⟩

/-- C5 counterexample: a frame whose id matches no pending request makes the
onMessage handler throw (threw = true: cementMessages[data.id] is undefined
and .resolve is read off it); nothing is logged and the claim that the
anomaly is surfaced as a logged error without crashing fails on this input. -/
theorem unmatchedFrame_cex :
    (CementChannel.onMessage [("known", 7)] strayFrame).threw = true ∧
    (CementChannel.onMessage [("known", 7)] strayFrame).settled = none :=
  ⟨rfl, rfl⟩

/-- C5 (amended): a frame whose correlation id matches no pending request
makes onMessage throw a TypeError instead of logging; the throw settles no
promise and leaves the pending map untouched, so in-flight unrelated requests
are not disturbed. -/
theorem unmatchedFrameThrows
    (pending : List (String × Nat)) (message : String) (d : JsonValue)
    (hp : JSON.parse message = some d)
    (hg : objGet pending (jsPropertyKey (getField d "id")) = none) :
    CementChannel.onMessage pending message = ⟨pending, none, true⟩ :=
  onMessage_unmatched hp hg

/-- Witness for unmatchedFrameThrows on the stray frame against a channel
with one unrelated pending request. -/
theorem unmatchedFrameThrows_witness :
    JSON.parse strayFrame = some strayDoc ∧
    objGet [("known", 7)] (jsPropertyKey (getField strayDoc "id")) = none ∧
    CementChannel.onMessage [("known", 7)] strayFrame = ⟨[("known", 7)], none, true⟩ :=
  ⟨rfl, rfl, unmatchedFrameThrows [("known", 7)] strayFrame strayDoc rfl rfl⟩

/-- C4 counterexample: when no sentinel arrives on the socket (no message at
all, or only non-sentinel traffic), the handshake promise of
sendConnectionMessage stays pending forever; it does not reject with a
timeout error, because no client-side timer exists. -/
theorem handshakeHangs_cex :
    RealtimeSocket.sendConnectionMessage [] = none ∧
    RealtimeSocket.sendConnectionMessage ["hello"] = none :=
  ⟨rfl, rfl⟩

lemma foldl_promiseStep_some (ms : List String) (r : HandshakeResult) :
    ms.foldl RealtimeSocket.promiseStep (some r) = some r := by
  induction ms with
  | nil => rfl
  | cons m ms ih => simpa [RealtimeSocket.promiseStep] using ih

/-- A handshake promise that settled before a message arrives stays settled
with the same outcome. -/
lemma sendConnectionMessage_some_src :
    ∀ (messages : List String) (r : HandshakeResult),
    RealtimeSocket.sendConnectionMessage messages = some r →
    ∃ pre m post, messages = pre ++ m :: post ∧
      RealtimeSocket.connectionSentinel m = some r ∧
      ∀ m2 ∈ pre, RealtimeSocket.connectionSentinel m2 = none := by
  intro messages
  induction messages with
  | nil =>
    intro r h
    simp [RealtimeSocket.sendConnectionMessage] at h
  | cons m ms ih =>
    intro r h
    rw [show RealtimeSocket.sendConnectionMessage (m :: ms) =
          ms.foldl RealtimeSocket.promiseStep (RealtimeSocket.connectionSentinel m) from rfl] at h
    cases hs : RealtimeSocket.connectionSentinel m with
    | some r0 =>
      rw [hs, foldl_promiseStep_some] at h
      obtain rfl := Option.some.inj h
      refine ⟨[], m, ms, rfl, hs, ?_⟩
      intro m2 hm2
      exact absurd hm2 (List.not_mem_nil m2)
    | none =>
      rw [hs] at h
      obtain ⟨pre, m0, post, heq, hsent, hpre⟩ := ih r h
      refine ⟨m :: pre, m0, post, by rw [heq]; rfl, hsent, ?_⟩
      intro m2 hm2
      rcases List.mem_cons.mp hm2 with rfl | hm2
      · exact hs
      · exact hpre m2 hm2

/-- The first sentinel among the arriving messages fixes the handshake
outcome. -/
lemma sendConnectionMessage_first_sentinel :
    ∀ (pre : List String) (m : String) (post : List String) (r : HandshakeResult),
    RealtimeSocket.connectionSentinel m = some r →
    (∀ m2 ∈ pre, RealtimeSocket.connectionSentinel m2 = none) →
    RealtimeSocket.sendConnectionMessage (pre ++ m :: post) = some r := by
  intro pre
  induction pre with
  | nil =>
    intro m post r hs _
    rw [show RealtimeSocket.sendConnectionMessage ([] ++ m :: post) =
          post.foldl RealtimeSocket.promiseStep (RealtimeSocket.connectionSentinel m) from rfl]
    rw [hs, foldl_promiseStep_some]
  | cons p pre ih =>
    intro m post r hs hpre
    have hp : RealtimeSocket.connectionSentinel p = none := hpre p (List.mem_cons_self ..)
    rw [show RealtimeSocket.sendConnectionMessage ((p :: pre) ++ m :: post) =
          (pre ++ m :: post).foldl RealtimeSocket.promiseStep
            (RealtimeSocket.connectionSentinel p) from rfl]
    rw [hp]
    exact ih m post r hs (fun m2 hm2 => hpre m2 (List.mem_cons_of_mem _ hm2))

/-- C4 (amended): the handshake promise settles exactly when a sentinel
arrives: it stays pending while only non-sentinel messages arrive, and it
settles with the outcome of the first sentinel (resolving on
CONNECTION_ACCEPTED, rejecting on CONNECTION_DISALLOWED, rejecting with a
timeout error on the server-sent CONNECTION_TIMEOUT).  With no sentinel the
promise remains unsettled forever: no client-side timer exists. -/
theorem handshakeSettlesOnSentinel (messages : List String) :
    (RealtimeSocket.sendConnectionMessage messages = none ↔
      ∀ m ∈ messages, RealtimeSocket.connectionSentinel m = none) ∧
    (∀ r, RealtimeSocket.sendConnectionMessage messages = some r ↔
      ∃ pre m post, messages = pre ++ m :: post ∧
        RealtimeSocket.connectionSentinel m = some r ∧
        ∀ m2 ∈ pre, RealtimeSocket.connectionSentinel m2 = none) := by
  constructor
  · induction messages with
    | nil => simp [RealtimeSocket.sendConnectionMessage]
    | cons m ms ih =>
      rw [show RealtimeSocket.sendConnectionMessage (m :: ms) =
            ms.foldl RealtimeSocket.promiseStep (RealtimeSocket.connectionSentinel m) from rfl]
      cases hs : RealtimeSocket.connectionSentinel m with
      | some r =>
        rw [foldl_promiseStep_some]
        constructor
        · intro h
          cases h
        · intro h
          have hm := h m (List.mem_cons_self ..)
          rw [hs] at hm
          cases hm
      | none =>
        rw [show List.foldl RealtimeSocket.promiseStep none ms =
              RealtimeSocket.sendConnectionMessage ms from rfl, ih]
        constructor
        · intro h m2 hm2
          rcases List.mem_cons.mp hm2 with rfl | hm2
          · exact hs
          · exact h m2 hm2
        · intro h m2 hm2
          exact h m2 (List.mem_cons_of_mem _ hm2)
  · intro r
    constructor
    · exact sendConnectionMessage_some_src messages r
    · rintro ⟨pre, m, post, rfl, hs, hpre⟩
      exact sendConnectionMessage_first_sentinel pre m post r hs hpre

/-- C7 counterexample: a transport disconnect arriving while a subscribe
request is still pending rejects nothing: the request is still pending
afterwards and the only callback fired is onDisconnected. -/
theorem disconnectLeavesPending_cex :
    (RealtimeSocket.socketOnDisconnected ⟨true, [("req1", 0)]⟩).1.cementMessages
      = [("req1", 0)] ∧
    (RealtimeSocket.socketOnDisconnected ⟨true, [("req1", 0)]⟩).2
      = [Emit.onDisconnected] :=
  ⟨rfl, rfl⟩

/-- C7 (amended): the disconnected handler sets connected to false and
invokes onDisconnected, and nothing more: every pending request on the
subscribe channel stays pending (no implicit rejection exists), so a send
promise issued before the disconnect can remain unsettled forever. -/
theorem disconnectLeavesPending (st : RTState) :
    (RealtimeSocket.socketOnDisconnected st).1.connected = false ∧
    (RealtimeSocket.socketOnDisconnected st).1.cementMessages = st.cementMessages ∧
    (RealtimeSocket.socketOnDisconnected st).2 = [Emit.onDisconnected] ∧
    ∀ r, Emit.reject r ∉ (RealtimeSocket.socketOnDisconnected st).2 := by
  refine ⟨rfl, rfl, rfl, ?_⟩
  intro r hr
  rcases List.mem_cons.mp hr with h | h
  · cases h
  · exact absurd h (List.not_mem_nil _)

/-- C9: the update frame for wire name article decodes (including the nested
JSON-encoded payload document) and, with the resolver binding article to
post, dispatches pushPayload with local name post, the id "1" received by the
handler, and the decoded payload. -/
theorem updateDispatchScenario :
    dispatchUpdate [("article", "post")] articleFrame =
      some ⟨some "post", some (JsonValue.str "1"),
            JsonValue.obj [("title", JsonValue.str "x")]⟩ :=
  rfl

/-- C6 counterexample: with no binding for the wire name article, the update
and the delete notifications are still dispatched onward, carrying the
undefined (none) local model name, instead of being surfaced as errors. -/
theorem unboundWireName_cex :
    dispatchUpdate [] articleFrame =
      some ⟨none, some (JsonValue.str "1"),
            JsonValue.obj [("title", JsonValue.str "x")]⟩ ∧
    dispatchDelete [] deleteFrame = some ⟨none, some (JsonValue.str "1")⟩ :=
  ⟨rfl, rfl⟩

/-- C6 (amended): when the wire-level model name of a decoded update or
delete push has no binding in jsonapiModelNames, the notification is not
surfaced as an error and not dropped: the handler dispatches it onward with
the undefined (none) local name (pushPayload(undefined, payload),
deleteRecordTask.perform(undefined, id)). -/
theorem unboundWireNameDispatchesUndefined :
    (∀ (names : List (String × String)) (data : String)
        (m i : Option JsonValue) (p : JsonValue),
      RealtimeSocket._onModelUpdated data = some (m, i, p) →
      objGet names (jsPropertyKey m) = none →
      dispatchUpdate names data = some ⟨none, i, p⟩) ∧
    (∀ (names : List (String × String)) (data : String)
        (m i : Option JsonValue),
      RealtimeSocket._onModelDeleted data = some (m, i) →
      objGet names (jsPropertyKey m) = none →
      dispatchDelete names data = some ⟨none, i⟩) := by
  constructor
  · intro names data m i p hdec hg
    unfold dispatchUpdate
    rw [hdec]
    simp [onModelUpdated, hg]
  · intro names data m i hdec hg
    unfold dispatchDelete
    rw [hdec]
    simp [onModelDeleted, hg]

/-- Witness for unboundWireNameDispatchesUndefined on the article update
frame against a name map holding only an unrelated binding. -/
theorem unboundWireNameDispatchesUndefined_witness :
    RealtimeSocket._onModelUpdated articleFrame =
      some (some (JsonValue.str "article"), some (JsonValue.str "1"),
            JsonValue.obj [("title", JsonValue.str "x")]) ∧
    objGet [("v", "w")] (jsPropertyKey (some (JsonValue.str "article"))) = none ∧
    dispatchUpdate [("v", "w")] articleFrame =
      some ⟨none, some (JsonValue.str "1"),
            JsonValue.obj [("title", JsonValue.str "x")]⟩ :=
  ⟨rfl, rfl,
   unboundWireNameDispatchesUndefined.1 [("v", "w")] articleFrame
     (some (JsonValue.str "article")) (some (JsonValue.str "1"))
     (JsonValue.obj [("title", JsonValue.str "x")]) rfl rfl⟩

lemma socketStep_parts (st : RTState) (e : SockEvent) :
    socketStep st e = (stepState st e, stepEmits e) := by
  cases e with
  | disconnectedEvt => rfl
  | connectedEvt msgs =>
    cases hr : RealtimeSocket.sendConnectionMessage msgs with
    | none => simp [socketStep, stepState, stepEmits, hr]
    | some r => cases r <;> simp [socketStep, stepState, stepEmits, hr]

lemma socketRunFrom_fst (es : List SockEvent) :
    ∀ st : RTState, (socketRunFrom st es).1 = es.foldl stepState st := by
  induction es with
  | nil => intro st; rfl
  | cons e es ih =>
    intro st
    simp only [socketRunFrom, socketStep_parts, List.foldl_cons]
    exact ih (stepState st e)

lemma socketRunFrom_snd (es : List SockEvent) :
    ∀ st : RTState, (socketRunFrom st es).2 = es.flatMap stepEmits := by
  induction es with
  | nil => intro st; rfl
  | cons e es ih =>
    intro st
    simp only [socketRunFrom, socketStep_parts, List.flatMap_cons]
    rw [ih (stepState st e)]

lemma count_stepEmits_onDisconnected (es : List SockEvent) :
    (es.flatMap stepEmits).count Emit.onDisconnected
      = es.count SockEvent.disconnectedEvt := by
  induction es with
  | nil => rfl
  | cons e es ih =>
    rw [List.flatMap_cons, List.count_append, ih, List.count_cons]
    cases e with
    | disconnectedEvt => simp [stepEmits]; omega
    | connectedEvt msgs =>
      have h0 : (stepEmits (SockEvent.connectedEvt msgs)).count Emit.onDisconnected = 0 := by
        cases hr : RealtimeSocket.sendConnectionMessage msgs with
        | none => simp [stepEmits, hr]
        | some r => cases r <;> simp [stepEmits, hr]
      simp [h0]

/-- The connected flag of a run is true exactly when some event carried an
accepted handshake and no transport disconnect followed it (or the flag was
already true and no disconnect occurred at all). -/
lemma runFrom_connected (es : List SockEvent) :
    ∀ st : RTState,
    ((es.foldl stepState st).connected = true ↔
      (∃ pre e post, es = pre ++ e :: post ∧ acceptedEvent e = true ∧
        ∀ e2 ∈ post, e2 ≠ SockEvent.disconnectedEvt) ∨
      (st.connected = true ∧ ∀ e2 ∈ es, e2 ≠ SockEvent.disconnectedEvt)) := by
  induction es with
  | nil =>
    intro st
    constructor
    · intro h
      exact Or.inr ⟨h, fun e2 he2 => absurd he2 (List.not_mem_nil _)⟩
    · rintro (⟨pre, e, post, heq, -, -⟩ | ⟨h, -⟩)
      · exact absurd heq (by simp)
      · exact h
  | cons e es ih =>
    intro st
    rw [List.foldl_cons, ih]
    cases e with
    | disconnectedEvt =>
      constructor
      · rintro (⟨pre, e0, post, heq, hacc, hpost⟩ | ⟨hc, -⟩)
        · exact Or.inl ⟨SockEvent.disconnectedEvt :: pre, e0, post, by rw [heq]; rfl,
            hacc, hpost⟩
        · cases hc
      · rintro (⟨pre, e0, post, heq, hacc, hpost⟩ | ⟨-, hno⟩)
        · cases pre with
          | nil =>
            simp only [List.nil_append, List.cons.injEq] at heq
            rw [← heq.1] at hacc
            cases hacc
          | cons p pre =>
            simp only [List.cons_append, List.cons.injEq] at heq
            exact Or.inl ⟨pre, e0, post, heq.2, hacc, hpost⟩
        · exact absurd rfl (hno SockEvent.disconnectedEvt (List.mem_cons_self ..))
    | connectedEvt msgs =>
      have hnd : SockEvent.connectedEvt msgs ≠ SockEvent.disconnectedEvt := by
        intro h
        cases h
      cases hr : RealtimeSocket.sendConnectionMessage msgs with
      | some r =>
        cases r with
        | accepted =>
          have hst : stepState st (SockEvent.connectedEvt msgs) =
              { st with connected := true } := by
            simp [stepState, hr]
          rw [hst]
          constructor
          · rintro (⟨pre, e0, post, heq, hacc, hpost⟩ | ⟨-, hno⟩)
            · exact Or.inl ⟨SockEvent.connectedEvt msgs :: pre, e0, post,
                by rw [heq]; rfl, hacc, hpost⟩
            · exact Or.inl ⟨[], SockEvent.connectedEvt msgs, es, rfl,
                by simp [acceptedEvent, hr], hno⟩
          · rintro (⟨pre, e0, post, heq, hacc, hpost⟩ | ⟨hc, hno⟩)
            · cases pre with
              | nil =>
                simp only [List.nil_append, List.cons.injEq] at heq
                exact Or.inr ⟨rfl, heq.2 ▸ hpost⟩
              | cons p pre =>
                simp only [List.cons_append, List.cons.injEq] at heq
                exact Or.inl ⟨pre, e0, post, heq.2, hacc, hpost⟩
            · exact Or.inr ⟨rfl,
                fun e2 he2 => hno e2 (List.mem_cons_of_mem _ he2)⟩
        | disallowed =>
          have hst : stepState st (SockEvent.connectedEvt msgs) = st := by
            simp [stepState, hr]
          have hacc0 : acceptedEvent (SockEvent.connectedEvt msgs) = false := by
            simp [acceptedEvent, hr]
          rw [hst]
          constructor
          · rintro (⟨pre, e0, post, heq, hacc, hpost⟩ | ⟨hc, hno⟩)
            · exact Or.inl ⟨SockEvent.connectedEvt msgs :: pre, e0, post,
                by rw [heq]; rfl, hacc, hpost⟩
            · exact Or.inr ⟨hc, fun e2 he2 => by
                rcases List.mem_cons.mp he2 with rfl | he2
                · exact hnd
                · exact hno e2 he2⟩
          · rintro (⟨pre, e0, post, heq, hacc, hpost⟩ | ⟨hc, hno⟩)
            · cases pre with
              | nil =>
                simp only [List.nil_append, List.cons.injEq] at heq
                rw [← heq.1] at hacc
                rw [hacc0] at hacc
                cases hacc
              | cons p pre =>
                simp only [List.cons_append, List.cons.injEq] at heq
                exact Or.inl ⟨pre, e0, post, heq.2, hacc, hpost⟩
            · exact Or.inr ⟨hc, fun e2 he2 => hno e2 (List.mem_cons_of_mem _ he2)⟩
        | timedOut =>
          have hst : stepState st (SockEvent.connectedEvt msgs) = st := by
            simp [stepState, hr]
          have hacc0 : acceptedEvent (SockEvent.connectedEvt msgs) = false := by
            simp [acceptedEvent, hr]
          rw [hst]
          constructor
          · rintro (⟨pre, e0, post, heq, hacc, hpost⟩ | ⟨hc, hno⟩)
            · exact Or.inl ⟨SockEvent.connectedEvt msgs :: pre, e0, post,
                by rw [heq]; rfl, hacc, hpost⟩
            · exact Or.inr ⟨hc, fun e2 he2 => by
                rcases List.mem_cons.mp he2 with rfl | he2
                · exact hnd
                · exact hno e2 he2⟩
          · rintro (⟨pre, e0, post, heq, hacc, hpost⟩ | ⟨hc, hno⟩)
            · cases pre with
              | nil =>
                simp only [List.nil_append, List.cons.injEq] at heq
                rw [← heq.1] at hacc
                rw [hacc0] at hacc
                cases hacc
              | cons p pre =>
                simp only [List.cons_append, List.cons.injEq] at heq
                exact Or.inl ⟨pre, e0, post, heq.2, hacc, hpost⟩
            · exact Or.inr ⟨hc, fun e2 he2 => hno e2 (List.mem_cons_of_mem _ he2)⟩
      | none =>
        have hst : stepState st (SockEvent.connectedEvt msgs) = st := by
          simp [stepState, hr]
        have hacc0 : acceptedEvent (SockEvent.connectedEvt msgs) = false := by
          simp [acceptedEvent, hr]
        rw [hst]
        constructor
        · rintro (⟨pre, e0, post, heq, hacc, hpost⟩ | ⟨hc, hno⟩)
          · exact Or.inl ⟨SockEvent.connectedEvt msgs :: pre, e0, post,
              by rw [heq]; rfl, hacc, hpost⟩
          · exact Or.inr ⟨hc, fun e2 he2 => by
              rcases List.mem_cons.mp he2 with rfl | he2
              · exact hnd
              · exact hno e2 he2⟩
        · rintro (⟨pre, e0, post, heq, hacc, hpost⟩ | ⟨hc, hno⟩)
          · cases pre with
            | nil =>
              simp only [List.nil_append, List.cons.injEq] at heq
              rw [← heq.1] at hacc
              rw [hacc0] at hacc
              cases hacc
            | cons p pre =>
              simp only [List.cons_append, List.cons.injEq] at heq
              exact Or.inl ⟨pre, e0, post, heq.2, hacc, hpost⟩
          · exact Or.inr ⟨hc, fun e2 he2 => hno e2 (List.mem_cons_of_mem _ he2)⟩

/-- C8: over every reachable lifecycle state (any transport event trace from
the initial disconnected state), the connected flag is true exactly when an
accepted handshake occurred with no transport disconnect after it - never on
mere transport connection and never after a disallowed or timed-out
handshake - and each transport disconnected event fires onDisconnected
exactly once and within its own step (the emissions are the per-event
emissions in trace order), hence before any later reconnect is processed. -/
theorem connectedOnlyAfterAcceptance (es : List SockEvent) :
    ((socketRun es).1.connected = true ↔
      ∃ pre e post, es = pre ++ e :: post ∧ acceptedEvent e = true ∧
        ∀ e2 ∈ post, e2 ≠ SockEvent.disconnectedEvt) ∧
    (socketRun es).2.count Emit.onDisconnected
      = es.count SockEvent.disconnectedEvt ∧
    (socketRun es).2 = es.flatMap stepEmits := by
  refine ⟨?_, ?_, ?_⟩
  · rw [socketRun, socketRunFrom_fst, runFrom_connected]
    constructor
    · rintro (h | ⟨hc, -⟩)
      · exact h
      · cases hc
    · intro h
      exact Or.inl h
  · rw [socketRun, socketRunFrom_snd, count_stepEmits_onDisconnected]
  · rw [socketRun, socketRunFrom_snd]

/-- Under registry well-formedness the replay list has no duplicate pair. -/
lemma onConnectedPerforms_nodup {subscriptions : List (String × List String)}
    (hwf : RegistryWF subscriptions) : (onConnectedPerforms subscriptions).Nodup := by
  unfold onConnectedPerforms
  rw [List.nodup_flatMap]
  constructor
  · intro p hp
    exact (hwf.2 p hp).map (fun i1 i2 h => ((Prod.mk.injEq ..) ▸ h).2)
  · refine ((List.pairwise_map).mp hwf.1).imp ?_
    intro a b hne x hx1 hx2
    obtain ⟨i1, -, h1⟩ := List.mem_map.mp hx1
    obtain ⟨i2, -, h2⟩ := List.mem_map.mp hx2
    rw [← h2] at h1
    exact hne ((Prod.mk.injEq ..) ▸ h1).1

/-- In a duplicate-free list every member is counted exactly once. -/
lemma countP_eq_one_of_nodup_mem {α : Type} [DecidableEq α] {l : List α} {a : α}
    (hnd : l.Nodup) (hmem : a ∈ l) : l.countP (fun b => decide (b = a)) = 1 := by
  induction l with
  | nil => simp at hmem
  | cons x l ih =>
    rw [List.countP_cons]
    rcases List.mem_cons.mp hmem with rfl | hmem2
    · have hx : a ∉ l := (List.nodup_cons.mp hnd).1
      have h0 : l.countP (fun b => decide (b = a)) = 0 := by
        rw [List.countP_eq_zero]
        intro b hb
        simp only [decide_eq_true_eq]
        rintro rfl
        exact hx hb
      simp [h0]
    · have hxa : x ≠ a := by
        rintro rfl
        exact (List.nodup_cons.mp hnd).1 hmem2
      rw [ih (List.nodup_cons.mp hnd).2 hmem2]
      simp [hxa]

/-- A pair appears in the replay list exactly when the registry records it. -/
lemma mem_onConnectedPerforms {subscriptions : List (String × List String)}
    {m i : String} (hfst : (subscriptions.map Prod.fst).Nodup) :
    (m, i) ∈ onConnectedPerforms subscriptions ↔
      trackedPair subscriptions m i = true := by
  unfold onConnectedPerforms trackedPair
  rw [List.mem_flatMap]
  constructor
  · rintro ⟨p, hp, hmem⟩
    obtain ⟨i0, hi0, heq⟩ := List.mem_map.mp hmem
    obtain ⟨h1, h2⟩ := (Prod.mk.injEq ..) ▸ heq
    subst h2
    have hp2 : (m, p.2) ∈ subscriptions := by
      rw [← h1]
      exact hp
    rw [mem_objGet hfst hp2]
    simpa using hi0
  · intro h
    cases hg : objGet subscriptions m with
    | none => rw [hg] at h; cases h
    | some ids =>
      rw [hg] at h
      refine ⟨(m, ids), objGet_mem hg, ?_⟩
      exact List.mem_map.mpr ⟨i, of_decide_eq_true h, rfl⟩

/-- C2: once the reconnect handshake is accepted and onConnected runs, the
replay performs exactly one subscribe for every pair the registry tracks at
that moment - including pairs that were already subscribed before the
disconnect - and the list of attempted pairs is the same for every outcome
oracle: the failure of one replayed subscribe removes no other pair from the
replay. -/
theorem replayResubscribesEachPairOnce
    (subscriptions : List (String × List String))
    (hwf : RegistryWF subscriptions) :
    (∀ m i, trackedPair subscriptions m i = true →
      (onConnectedPerforms subscriptions).countP (fun q => decide (q = (m, i))) = 1) ∧
    (∀ fail : String → String → Bool,
      (onConnectedAttempts fail subscriptions).map Prod.fst =
        onConnectedPerforms subscriptions) := by
  constructor
  · intro m i h
    exact countP_eq_one_of_nodup_mem (onConnectedPerforms_nodup hwf)
      ((mem_onConnectedPerforms hwf.1).mpr h)
  · intro fail
    unfold onConnectedAttempts onConnectedPerforms
    rw [List.map_flatMap]
    congr 1
    funext p
    simp [List.map_map, Function.comp_def]

/-- Witness for replayResubscribesEachPairOnce on the demo registry. -/
theorem replayResubscribesEachPairOnce_witness :
    RegistryWF subsDemo ∧
    trackedPair subsDemo "post" "1" = true ∧
    (onConnectedPerforms subsDemo).countP (fun q => decide (q = ("post", "1"))) = 1 := by
  have hwf : RegistryWF subsDemo := by
    unfold RegistryWF
    exact ⟨by decide, by decide⟩
  exact ⟨hwf, by decide,
    (replayResubscribesEachPairOnce subsDemo hwf).1 "post" "1" (by decide)⟩

/-- The registry test through the lookup _push performs, as one decide. -/
lemma trackedPair_eq_decide (subscriptions : List (String × List String))
    (m i : String) :
    trackedPair subscriptions m i =
      decide (i ∈ (objGet subscriptions m).getD []) := by
  unfold trackedPair
  cases hg : objGet subscriptions m <;> simp

/-- Effect of a registry write on the registry test. -/
lemma trackedPair_objSet (subscriptions : List (String × List String))
    (k : String) (l : List String) (m i : String) :
    trackedPair (objSet subscriptions k l) m i =
      if m = k then decide (i ∈ l) else trackedPair subscriptions m i := by
  unfold trackedPair
  rw [objGet_objSet]
  by_cases h : m = k <;> simp [h]

/-- Registering a pair the registry already records is a complete no-op. -/
lemma trackModel_already {pathForType : String → String} {connected : Bool}
    {st : StoreState} {r : Record}
    (h : trackedPair st.subscriptions r.modelName r.id = true) :
    trackModel pathForType connected st r = st := by
  unfold trackedPair at h
  cases hg : objGet st.subscriptions r.modelName with
  | none => rw [hg] at h; cases h
  | some ids =>
    rw [hg] at h
    have hi : r.id ∈ ids := of_decide_eq_true h
    simp only [trackModel, hg, Option.getD_some, hi, if_true]
    rw [objSet_get_self hg]

/-- A pair the registry does not record is absent from the stored id list. -/
lemma not_mem_of_trackedPair_false {subscriptions : List (String × List String)}
    {m i : String} (h : trackedPair subscriptions m i = false) :
    i ∉ (objGet subscriptions m).getD [] := by
  unfold trackedPair at h
  cases hg : objGet subscriptions m with
  | none => simp
  | some ids =>
    rw [hg] at h
    simp only [Option.getD_some]
    simpa using h

/-- Registering a new pair while connected: the id is appended to the
registry entry, the wire-name binding is recorded and the subscribe is
performed. -/
lemma trackModel_new_connected {pathForType : String → String}
    {st : StoreState} {r : Record}
    (h : trackedPair st.subscriptions r.modelName r.id = false) :
    trackModel pathForType true st r =
      { st with
        subscriptions := objSet st.subscriptions r.modelName
          (((objGet st.subscriptions r.modelName).getD []) ++ [r.id]),
        jsonapiModelNames :=
          objSet st.jsonapiModelNames (pathForType r.modelName) r.modelName,
        sentSubscribes := st.sentSubscribes ++ [(r.modelName, r.id)] } := by
  have hni := not_mem_of_trackedPair_false h
  simp [trackModel, subscribeTask, hni]

/-- Registering a new pair while disconnected: the id is appended to the
registry entry and nothing is sent. -/
lemma trackModel_new_disconnected {pathForType : String → String}
    {st : StoreState} {r : Record}
    (h : trackedPair st.subscriptions r.modelName r.id = false) :
    trackModel pathForType false st r =
      { st with
        subscriptions := objSet st.subscriptions r.modelName
          (((objGet st.subscriptions r.modelName).getD []) ++ [r.id]) } := by
  have hni := not_mem_of_trackedPair_false h
  simp [trackModel, hni]

lemma trackModel_preserves_inv {pathForType : String → String} {st : StoreState}
    {r : Record} (hinv : sentMatchesRegistry st) :
    sentMatchesRegistry (trackModel pathForType true st r) := by
  cases htr : trackedPair st.subscriptions r.modelName r.id with
  | true =>
    rw [trackModel_already htr]
    exact hinv
  | false =>
    rw [trackModel_new_connected htr]
    intro m i
    dsimp only
    rw [trackedPair_objSet]
    by_cases hm : m = r.modelName
    · subst hm
      rw [if_pos rfl]
      have hold := hinv r.modelName i
      rw [trackedPair_eq_decide] at hold
      constructor
      · intro hmem
        rcases List.mem_append.mp hmem with h1 | h1
        · have hi := of_decide_eq_true (hold.mp h1)
          exact decide_eq_true (List.mem_append_left _ hi)
        · have heq : (r.modelName, i) = (r.modelName, r.id) := List.mem_singleton.mp h1
          obtain ⟨-, hir⟩ := (Prod.mk.injEq ..) ▸ heq
          subst hir
          exact decide_eq_true (List.mem_append_right _ (List.mem_singleton_self _))
      · intro hdec
        rcases List.mem_append.mp (of_decide_eq_true hdec) with h1 | h1
        · exact List.mem_append_left _ (hold.mpr (decide_eq_true h1))
        · have hir : i = r.id := List.mem_singleton.mp h1
          subst hir
          exact List.mem_append_right _ (List.mem_singleton_self _)
    · rw [if_neg hm]
      have hold := hinv m i
      constructor
      · intro hmem
        rcases List.mem_append.mp hmem with h1 | h1
        · exact hold.mp h1
        · have heq : (m, i) = (r.modelName, r.id) := List.mem_singleton.mp h1
          obtain ⟨hm1, -⟩ := (Prod.mk.injEq ..) ▸ heq
          exact absurd hm1 hm
      · intro htr2
        exact List.mem_append_left _ (hold.mpr htr2)

lemma foldl_track_inv (pathForType : String → String) :
    ∀ (events : List TrackEvent) (st : StoreState),
    (∀ e ∈ events, e.connected = true) → sentMatchesRegistry st →
    sentMatchesRegistry
      (events.foldl (fun st e => trackModel pathForType e.connected st e.record) st) := by
  intro events
  induction events with
  | nil => intro st _ h; exact h
  | cons e es ih =>
    intro st hconn hinv
    rw [List.foldl_cons, hconn e (List.mem_cons_self ..)]
    exact ih _ (fun e2 he2 => hconn e2 (List.mem_cons_of_mem _ he2))
      (trackModel_preserves_inv hinv)

/-- C3: over every sequence of interest registrations performed while
connected, the set of (type, id) pairs sent as subscribe requests equals the
set of pairs the registry records; registering an already-tracked pair is a
complete no-op (no record, no send); and a pair registered while not
connected is recorded without any send, to be reconciled by the
next-handshake replay. -/
theorem trackRegistersOnceAndSendsWhenConnected (pathForType : String → String) :
    (∀ events : List TrackEvent, (∀ e ∈ events, e.connected = true) →
      ∀ m i, ((m, i) ∈ (runTrack pathForType events).sentSubscribes ↔
        trackedPair (runTrack pathForType events).subscriptions m i = true)) ∧
    (∀ (connected : Bool) (st : StoreState) (r : Record),
      trackedPair st.subscriptions r.modelName r.id = true →
      trackModel pathForType connected st r = st) ∧
    (∀ (st : StoreState) (r : Record),
      trackedPair st.subscriptions r.modelName r.id = false →
      (trackModel pathForType false st r).sentSubscribes = st.sentSubscribes ∧
      trackedPair (trackModel pathForType false st r).subscriptions
        r.modelName r.id = true) := by
  refine ⟨?_, ?_, ?_⟩
  · intro events hconn
    exact foldl_track_inv pathForType events ⟨[], [], [], []⟩ hconn
      (by intro m i; simp [trackedPair, objGet])
  · intro connected st r h
    exact trackModel_already h
  · intro st r h
    rw [trackModel_new_disconnected h]
    refine ⟨rfl, ?_⟩
    dsimp only
    rw [trackedPair_objSet, if_pos rfl]
    simp

/-- Witness for trackRegistersOnceAndSendsWhenConnected over demoEvents. -/
theorem trackRegistersOnce_witness :
    (∀ e ∈ demoEvents, e.connected = true) ∧
    ((("post", "1") ∈ (runTrack (fun s => s) demoEvents).sentSubscribes) ↔
      trackedPair (runTrack (fun s => s) demoEvents).subscriptions "post" "1" = true) :=
  ⟨by decide,
   (trackRegistersOnceAndSendsWhenConnected (fun s => s)).1 demoEvents
     (by decide) "post" "1"⟩

lemma trackModel_cache (pathForType : String → String) (connected : Bool)
    (st : StoreState) (r : Record) :
    (trackModel pathForType connected st r).cache = st.cache := by
  cases htr : trackedPair st.subscriptions r.modelName r.id with
  | true => rw [trackModel_already htr]
  | false =>
    cases connected with
    | true => rw [trackModel_new_connected htr]
    | false => rw [trackModel_new_disconnected htr]

lemma foldl_track_cache (shouldSubscribe : Record → Bool)
    (pathForType : String → String) (connected : Bool) :
    ∀ (rs : List Record) (st : StoreState),
    (rs.foldl
      (fun s r => if shouldSubscribe r then trackModel pathForType connected s r else s)
      st).cache = st.cache := by
  intro rs
  induction rs with
  | nil => intro st; rfl
  | cons r rs ih =>
    intro st
    rw [List.foldl_cons, ih]
    by_cases h : shouldSubscribe r
    · rw [if_pos h, trackModel_cache]
    · rw [if_neg h]

/-- C10: the mixin _push returns exactly the superclass result (the pushed
record, array of records, or null), unchanged by the subscription
bookkeeping, and the record cache owned by the superclass is untouched: the
override mutates only the subscriptions registry and, through subscribeTask,
the wire-name map and the outgoing subscribe traffic. -/
theorem pushReturnsSuperResult (shouldSubscribe : Record → Bool)
    (pathForType : String → String) (connected : Bool)
    (st : StoreState) (pushed : PushedValue) :
    (_push shouldSubscribe pathForType connected st pushed).2 = pushed ∧
    (_push shouldSubscribe pathForType connected st pushed).1.cache = st.cache := by
  constructor
  · cases pushed <;> rfl
  · cases pushed with
    | nullPush => rfl
    | single r => exact foldl_track_cache shouldSubscribe pathForType connected [r] st
    | many rs => exact foldl_track_cache shouldSubscribe pathForType connected rs st

end JargoRealtime
